import Mathlib

/-!
Shallow embedding of the client-side reconciliation and ordering core of the
taskfront repository (a realtime shared task board).

The embedded code:
* the `Task` record and the fixed column enumeration
  (`src/app/components/Board.tsx` lines 9-33, `src/unnamed/part_003` lines 7-21);
* the reconciliation switch in `ws.onmessage`
  (`src/unnamed/part_003` lines 48-76; the switch in
  `src/app/components/Board.tsx` lines 77-105 is identical except that it has
  no `init` case and first discards messages for another board);
* the drag-and-drop reordering logic of `onDragEnd`
  (`src/app/components/Board.tsx` lines 123-207, identically
  `src/unnamed/part_003` lines 94-172), which mutates the task objects of the
  current SWR data array in place; it is embedded as a heap model: the heap is
  the list of task objects (the `currentTasks` array) and the working arrays
  `sourceTasks` / `destTasks` are lists of indices into that heap, so that the
  in-place `task.order` / `task.column` assignments and the aliasing between
  the arrays are reproduced exactly;
* the optimistic local mutations of `editTask`, `deleteTask` and `createTask`
  (`src/unnamed/part_003` lines 175-210).

JavaScript `Array.prototype.sort` with the comparator
`(a, b) => a.order - b.order` is a stable ascending sort by `order`; a stable
sort is uniquely determined by its key, and it is modelled here by a
structurally recursive stable insertion sort (`sortByKey`).
`Array.prototype.splice` clamps its start index to the array length, which
`spliceRemove` / `spliceInsert` reproduce.
-/

namespace Taskfront

/-- The fixed column enumeration (`"todo" | "inprogress" | "done" | "unsure"`). -/
inductive Column where
  | todo
  | inprogress
  | done
  | unsure
deriving DecidableEq, Repr, Inhabited

/-- `COLUMNS` from Board.tsx lines 28-33 (only the `id` fields matter here). -/
def COLUMNS : List Column := [.todo, .inprogress, .done, .unsure]

/-- The `Task` record (Board.tsx lines 9-17). -/
structure Task where
  id : String
  title : String
  description : Option String := none
  column : Column
  createdAt : Int := 0
  order : Int
  boardId : String := ""
deriving DecidableEq, Repr, Inhabited

/-- Stable ascending sort by `key`: the model of JavaScript
`array.sort((a, b) => a.order - b.order)`. A stable ascending sort is
uniquely determined by its key, so any stable sorting algorithm is a faithful
model; insertion sort is used because it is structurally recursive. -/
def sortByKey {α : Type} (key : α → Int) (l : List α) : List α :=
  List.insertionSort (fun a b => key a ≤ key b) l

/-- `l.splice(i, 1)`: remove the element at index `i` (no-op past the end). -/
def spliceRemove {α : Type} (l : List α) (i : Nat) : List α :=
  l.take i ++ l.drop (i + 1)

/-- `l.splice(i, 0, x)`: insert `x` at index `i` (appends when `i` is past
the end, as `splice` clamps the start index). -/
def spliceInsert {α : Type} (l : List α) (i : Nat) (x : α) : List α :=
  l.take i ++ x :: l.drop i

/-- `tasks.sort((a, b) => a.order - b.order)`. -/
def sortByOrder (l : List Task) : List Task := sortByKey (fun t => t.order) l

/-- A group's rank-sorted sequence of identifiers: the per-column display
order computed in Board.tsx lines 111-120 (filter by column, sort by order),
projected to ids. -/
def groupSeq (tasks : List Task) (c : Column) : List String :=
  (sortByOrder (tasks.filter (fun t => t.column = c))).map (fun t => t.id)

/-- A group's rank-sorted sequence of ranks (`order` fields). -/
def groupRanks (tasks : List Task) (c : Column) : List Int :=
  (sortByOrder (tasks.filter (fun t => t.column = c))).map (fun t => t.order)

/-- The spec's rank-contiguity invariant: in every group the ranks, read in
rank-sorted order, are exactly `0..n-1`. -/
def ranksContiguous (tasks : List Task) : Bool :=
  COLUMNS.all (fun c =>
    groupRanks tasks c
      = (List.range (tasks.filter (fun t => t.column = c)).length).map
          (fun n => (n : Int)))

/-- `tasks.map(t => t.id).join(",")` — the comparison key used by the
`tasks_reorder` case (Board.tsx lines 99-100). -/
def joinedIds (tasks : List Task) : String :=
  String.intercalate "," (tasks.map (fun t => t.id))

/-- The authoritative events of the channel protocol (the `msg.type`
discriminator of `ws.onmessage`). -/
inductive Event where
  | init (tasks : List Task)
  | created (task : Task)
  | updated (task : Task)
  | deleted (id : String)
  | reorder (tasks : List Task)

/-- One step of the reconciliation engine: the `switch (msg.type)` of
`ws.onmessage` (`src/unnamed/part_003` lines 50-75; Board.tsx lines 82-104 is
the same switch without the `init` case). -/
def applyEvent (tasks : List Task) (e : Event) : List Task :=
  match e with
  | .init ts => ts
  | .created t => if tasks.any (fun x => x.id = t.id) then tasks else tasks ++ [t]
  | .updated t => tasks.map (fun x => if x.id = t.id then t else x)
  | .deleted i => tasks.filter (fun x => ¬ x.id = i)
  | .reorder ts => if joinedIds tasks = joinedIds ts then tasks else ts

/-- Folding a whole stream of authoritative events into local state, in
delivery order. -/
def applyEvents (tasks : List Task) (evs : List Event) : List Task :=
  evs.foldl applyEvent tasks

/-- Read a heap cell (a task object of the `currentTasks` array). -/
def hget (h : List Task) (i : Nat) : Task := h.getD i default

/-- The indices of the heap objects in column `c`, in array order: the
filter `currentTasks.filter(t => t.column === col)` seen as object
references. -/
def colIdxs (h : List Task) (c : Column) : List Nat :=
  (List.range h.length).filter (fun i => (hget h i).column = c)

/-- Sorting an index array by the `order` field of the referenced heap
objects: `.sort((a, b) => a.order - b.order)` on an array of objects. -/
def sortIdxByOrder (h : List Task) (idxs : List Nat) : List Nat :=
  sortByKey (fun i => (hget h i).order) idxs

/-- `arr.forEach((task, index) => task.order = index)` starting at position
`p`: sequentially assigns `order := p, p+1, ...` to the heap cells named by
`idxs`. -/
def renumberFrom (h : List Task) (p : Nat) : List Nat → List Task
  | [] => h
  | i :: rest => renumberFrom (h.set i { hget h i with order := (p : Int) }) (p + 1) rest

/-- The `updatedTasks` reconstruction of Board.tsx lines 172-183: iterate the
fixed column enumeration; for the source (resp. destination) column push the
`sourceTasks` (resp. `destTasks`) array, for every other column push the
column's heap objects sorted by their (current) order. -/
def buildUpdated (h : List Task) (srcCol destCol : Column)
    (srcIdxs destIdxs : List Nat) : List Task :=
  COLUMNS.foldl (fun acc c => acc ++
    (if c = srcCol then srcIdxs.map (hget h)
     else if c = destCol then destIdxs.map (hget h)
     else sortByOrder (h.filter (fun t => t.column = c)))) []

/-- `currentTasks.filter(t => t.column === c).sort((a, b) => a.order - b.order)`
as an array of object references (heap indices): the `sourceTasks` /
`destTasks` arrays of Board.tsx lines 140-141. -/
def sourceIdxs (tasks : List Task) (c : Column) : List Nat :=
  sortIdxByOrder tasks (colIdxs tasks c)

/-- `sourceTasks` after `sourceTasks.splice(srcIndex, 1)` (line 144). -/
def sourceIdxs1 (tasks : List Task) (c : Column) (srcIndex : Nat) : List Nat :=
  spliceRemove (sourceIdxs tasks c) srcIndex

/-- The heap after the first source renumber
`sourceTasks.forEach((task, index) => task.order = index)` (lines 147-149). -/
def heap1 (tasks : List Task) (srcCol : Column) (srcIndex : Nat) : List Task :=
  renumberFrom tasks 0 (sourceIdxs1 tasks srcCol srcIndex)

/-- The heap after `movedTask.column = destCol` (line 161). -/
def heap2 (tasks : List Task) (movedIdx : Nat) (srcCol destCol : Column)
    (srcIndex : Nat) : List Task :=
  (heap1 tasks srcCol srcIndex).set movedIdx
    { hget (heap1 tasks srcCol srcIndex) movedIdx with column := destCol }

/-- `destTasks` after `destTasks.splice(destIndex, 0, movedTask)` (line 162). -/
def destIdxs1 (tasks : List Task) (movedIdx : Nat) (destCol : Column)
    (destIndex : Nat) : List Nat :=
  spliceInsert (sourceIdxs tasks destCol) destIndex movedIdx

/-- The heap after the second source renumber (lines 164-166). -/
def heap3 (tasks : List Task) (movedIdx : Nat) (srcCol destCol : Column)
    (srcIndex : Nat) : List Task :=
  renumberFrom (heap2 tasks movedIdx srcCol destCol srcIndex) 0
    (sourceIdxs1 tasks srcCol srcIndex)

/-- The heap after the destination renumber (lines 167-169). -/
def heap4 (tasks : List Task) (movedIdx : Nat) (srcCol destCol : Column)
    (srcIndex destIndex : Nat) : List Task :=
  renumberFrom (heap3 tasks movedIdx srcCol destCol srcIndex) 0
    (destIdxs1 tasks movedIdx destCol destIndex)

/-- `sourceTasks` after the same-column reinsertion
`sourceTasks.splice(destIndex, 0, movedTask)` (line 154). -/
def sourceIdxs2 (tasks : List Task) (c : Column) (srcIndex destIndex movedIdx : Nat) :
    List Nat :=
  spliceInsert (sourceIdxs1 tasks c srcIndex) destIndex movedIdx

/-- The heap after the same-column full renumber (lines 156-158). -/
def heap2same (tasks : List Task) (movedIdx : Nat) (c : Column)
    (srcIndex destIndex : Nat) : List Task :=
  renumberFrom (heap1 tasks c srcIndex) 0
    (sourceIdxs2 tasks c srcIndex destIndex movedIdx)

/-- The same-column branch of `onDragEnd` (Board.tsx lines 139-158 and the
`srcCol === destCol` arm, then lines 172-186): splice the element at the
source index out of the rank-sorted source array, renumber, splice the moved
object back in at the destination index, renumber again, then rebuild
`updatedTasks`. Returns (final heap, `updatedTasks`). -/
def sameColMove (tasks : List Task) (movedIdx : Nat) (srcCol destCol : Column)
    (srcIndex destIndex : Nat) : List Task × List Task :=
  (heap2same tasks movedIdx srcCol srcIndex destIndex,
   buildUpdated (heap2same tasks movedIdx srcCol srcIndex destIndex)
     srcCol destCol (sourceIdxs2 tasks srcCol srcIndex destIndex movedIdx)
     (sourceIdxs tasks destCol))

/-- The cross-column branch of `onDragEnd` (Board.tsx lines 139-149 and
159-186): splice the element at the source index out of the rank-sorted
source array and renumber the source column; set the moved object's column
field; splice the moved object into the rank-sorted destination array at the
destination index; renumber the source column again and then the destination
column; rebuild `updatedTasks`. Returns (final heap, `updatedTasks`). -/
def crossColMove (tasks : List Task) (movedIdx : Nat) (srcCol destCol : Column)
    (srcIndex destIndex : Nat) : List Task × List Task :=
  (heap4 tasks movedIdx srcCol destCol srcIndex destIndex,
   buildUpdated (heap4 tasks movedIdx srcCol destCol srcIndex destIndex)
     srcCol destCol (sourceIdxs1 tasks srcCol srcIndex)
     (destIdxs1 tasks movedIdx destCol destIndex))

/-- The reordering core of `onDragEnd` (Board.tsx lines 123-207), as a heap
model. The input heap is the task list held by SWR (`currentTasks` is a
shallow copy, so its elements are the very same objects). The result is the
pair (final heap, `updatedTasks`): the first component is what the original
task objects look like after the in-place mutations, the second is the new
local state passed to `mutate`. The early returns (same column and index, or
unknown `draggableId`) leave both unchanged; otherwise the work is done by
`sameColMove` / `crossColMove` above. -/
def onDragEndModel (tasks : List Task) (draggableId : String)
    (srcCol destCol : Column) (srcIndex destIndex : Nat) :
    List Task × List Task :=
  if srcCol = destCol ∧ srcIndex = destIndex then (tasks, tasks)
  else
    match tasks.findIdx? (fun t => t.id = draggableId) with
    | none => (tasks, tasks)
    | some movedIdx =>
      if srcCol = destCol then
        sameColMove tasks movedIdx srcCol destCol srcIndex destIndex
      else
        crossColMove tasks movedIdx srcCol destCol srcIndex destIndex

/-- `arr.forEach((task, index) => task.order = index)` on a value-level
sequence, starting at `p`. -/
def renumberSeqFrom (p : Nat) : List Task → List Task
  | [] => []
  | t :: rest => { t with order := (p : Int) } :: renumberSeqFrom (p + 1) rest

/-- Renumber a sequence to ranks `0..n-1`. -/
def renumberSeq (l : List Task) : List Task := renumberSeqFrom 0 l

/-- Following the spec's words for a cross-group move (section 4.2): remove
the moved entity from the source group's rank-sorted sequence and renumber it
to `0..n-2`; change the moved entity's group field to the destination; insert
it at the destination index of the destination group's rank-sorted sequence
and renumber that group to `0..n-1`; reconstruct the full set by iterating
the fixed group enumeration, other groups passing through re-sorted by
existing rank. Stated for comparison with the source-derived
`onDragEndModel`. -/
def specCrossMove (tasks : List Task) (moved : Task)
    (srcCol destCol : Column) (srcIndex destIndex : Nat) : List Task :=
  let src1 := renumberSeq
    (spliceRemove (sortByOrder (tasks.filter (fun t => t.column = srcCol))) srcIndex)
  let dest1 := renumberSeq
    (spliceInsert (sortByOrder (tasks.filter (fun t => t.column = destCol)))
      destIndex { moved with column := destCol })
  COLUMNS.foldl (fun acc c => acc ++
    (if c = srcCol then src1
     else if c = destCol then dest1
     else sortByOrder (tasks.filter (fun t => t.column = c)))) []

/-- The optimistic local mutation of `editTask` (`src/unnamed/part_003`
lines 188-201): if the prompt result is empty (falsy) nothing happens,
otherwise the matching task's title is replaced in local state before the
request resolves. -/
def editTaskLocal (tasks : List Task) (taskId : String)
    (newTitlePrompt : String) : List Task :=
  if newTitlePrompt = "" then tasks
  else tasks.map (fun t => if t.id = taskId then { t with title := newTitlePrompt } else t)

/-- The optimistic local mutation of `deleteTask` (`src/unnamed/part_003`
lines 203-210): the task is removed from local state before the request
resolves. -/
def deleteTaskLocal (tasks : List Task) (taskId : String) : List Task :=
  tasks.filter (fun t => ¬ t.id = taskId)

/-- The local-state effect of `createTask` (`src/unnamed/part_003`
lines 175-186): the function posts the request and never calls `mutate`, so
local state is untouched until an authoritative `task_created` event
arrives. -/
def createTaskLocal (tasks : List Task) : List Task := tasks

/-- Concrete task `A`, rank 0 of group `todo`. -/
def taskA : Task := { id := "A", title := "A", column := .todo, order := 0 }

/-- Concrete task `B`, rank 1 of group `todo`. -/
def taskB : Task := { id := "B", title := "B", column := .todo, order := 1 }

/-- Concrete task `C`, rank 2 of group `todo`. -/
def taskC : Task := { id := "C", title := "C", column := .todo, order := 2 }

/-- Concrete task `B`-in-`done`, rank 0 of group `done`. -/
def taskDb : Task := { id := "B", title := "B", column := .done, order := 0 }

/-- Task `A` as moved into group `done` by a broadcast that keeps the flat
identifier order. -/
def taskAd : Task := { taskA with column := .done, order := 5 }

/-- A task whose identifier contains a comma. -/
def taskAB : Task := { id := "a,b", title := "x", column := .todo, order := 0 }

/-- A task with identifier `a`. -/
def taskA2 : Task := { id := "a", title := "y", column := .todo, order := 0 }

/-- A task with identifier `b`. -/
def taskB2 : Task := { id := "b", title := "z", column := .todo, order := 1 }

/-- Concrete task `D`, rank 0 of group `inprogress`. -/
def taskC0 : Task := { id := "D", title := "D", column := .inprogress, order := 0 }

/-! Helper lemmas about the heap model. -/

theorem hget_set (h : List Task) (i j : Nat) (x : Task) :
    hget (h.set i x) j = if i = j ∧ i < h.length then x else hget h j := by
  simp only [hget, List.getD_eq_getElem?_getD, List.getElem?_set]
  by_cases hij : i = j
  · subst hij
    by_cases hlen : i < h.length
    · simp [hlen]
    · simp [hlen, List.getElem?_eq_none (Nat.le_of_not_lt hlen)]
  · simp [hij]

theorem hget_cons_succ (a : Task) (tl : List Task) (n : Nat) :
    hget (a :: tl) (n + 1) = hget tl n := rfl

theorem length_renumberFrom (idxs : List Nat) (h : List Task) (p : Nat) :
    (renumberFrom h p idxs).length = h.length := by
  induction idxs generalizing h p with
  | nil => rfl
  | cons j rest ih => simp [renumberFrom, ih, List.length_set]

theorem hget_renumberFrom_of_notMem (idxs : List Nat) (h : List Task)
    (p : Nat) (i : Nat) (hi : i ∉ idxs) :
    hget (renumberFrom h p idxs) i = hget h i := by
  induction idxs generalizing h p with
  | nil => rfl
  | cons j rest ih =>
    have hij : ¬ j = i := fun e => hi (e ▸ List.mem_cons_self j rest)
    have hrest : i ∉ rest := fun e => hi (List.mem_cons_of_mem j e)
    rw [renumberFrom, ih _ _ hrest, hget_set]
    simp [hij]

theorem column_hget_renumberFrom (idxs : List Nat) (h : List Task)
    (p : Nat) (i : Nat) :
    (hget (renumberFrom h p idxs) i).column = (hget h i).column := by
  induction idxs generalizing h p with
  | nil => rfl
  | cons j rest ih =>
    rw [renumberFrom, ih, hget_set]
    by_cases hij : j = i ∧ j < h.length
    · rw [if_pos hij]
      rw [hij.1]
    · rw [if_neg hij]

theorem map_hget_renumberFrom (idxs : List Nat) (h : List Task) (p : Nat)
    (hnd : idxs.Nodup) (hbd : ∀ i ∈ idxs, i < h.length) :
    idxs.map (hget (renumberFrom h p idxs)) = renumberSeqFrom p (idxs.map (hget h)) := by
  induction idxs generalizing h p with
  | nil => rfl
  | cons j rest ih =>
    have hj : j ∉ rest := (List.nodup_cons.mp hnd).1
    have hrest : rest.Nodup := (List.nodup_cons.mp hnd).2
    have hjlen : j < h.length := hbd j (List.mem_cons_self j rest)
    simp only [renumberFrom, List.map_cons, renumberSeqFrom]
    refine List.cons_eq_cons.mpr ⟨?_, ?_⟩
    · rw [hget_renumberFrom_of_notMem rest _ _ _ hj, hget_set]
      simp [hjlen]
    · rw [ih _ _ hrest (fun i hi => by
        rw [List.length_set]; exact hbd i (List.mem_cons_of_mem j hi))]
      congr 1
      apply List.map_congr_left
      intro i hi
      rw [hget_set, if_neg]
      intro hc
      exact hj (hc.1 ▸ hi)

theorem renumberSeqFrom_renumberSeqFrom (l : List Task) (p : Nat) :
    renumberSeqFrom p (renumberSeqFrom p l) = renumberSeqFrom p l := by
  induction l generalizing p with
  | nil => rfl
  | cons t rest ih => simp [renumberSeqFrom, ih]

theorem map_spliceRemove {α β : Type} (f : α → β) (l : List α) (i : Nat) :
    (spliceRemove l i).map f = spliceRemove (l.map f) i := by
  simp [spliceRemove, List.map_take, List.map_drop]

theorem map_spliceInsert {α β : Type} (f : α → β) (l : List α) (i : Nat) (x : α) :
    (spliceInsert l i x).map f = spliceInsert (l.map f) i (f x) := by
  simp [spliceInsert, List.map_take, List.map_drop]

theorem sublist_spliceRemove {α : Type} (l : List α) (i : Nat) :
    (spliceRemove l i).Sublist l := by
  have hdrop : (l.drop (i + 1)).Sublist (l.drop i) := by
    have : l.drop (i + 1) = (l.drop i).tail := by
      rw [← List.drop_one, List.drop_drop, Nat.add_comm]
    rw [this]
    exact List.tail_sublist _
  have := hdrop.append_left (l.take i)
  rwa [List.take_append_drop] at this

theorem perm_spliceInsert {α : Type} (l : List α) (i : Nat) (x : α) :
    (spliceInsert l i x).Perm (x :: l) := by
  have := @List.perm_middle α x (l.take i) (l.drop i)
  rw [List.take_append_drop] at this
  exact this

theorem mem_spliceInsert {α : Type} (l : List α) (i : Nat) (x y : α) :
    y ∈ spliceInsert l i x ↔ y = x ∨ y ∈ l := by
  rw [(perm_spliceInsert l i x).mem_iff, List.mem_cons]

theorem notMem_spliceRemove {α : Type} (l : List α) (i : Nat) (a : α)
    (hnd : l.Nodup) (ha : l[i]? = some a) : a ∉ spliceRemove l i := by
  obtain ⟨hlen, hval⟩ := List.getElem?_eq_some_iff.mp ha
  have hsplit : l = l.take i ++ a :: l.drop (i + 1) := by
    rw [← hval, ← List.drop_eq_getElem_cons hlen, List.take_append_drop]
  rw [hsplit] at hnd
  obtain ⟨-, hnd2, hdisj⟩ := List.nodup_append.mp hnd
  intro hmem
  rcases List.mem_append.mp hmem with hmem | hmem
  · exact hdisj hmem (List.mem_cons_self a _)
  · exact (List.nodup_cons.mp hnd2).1 hmem

theorem findIdx?_found (l : List Task) (p : Task → Bool) (s k : Nat)
    (h : List.findIdx? p l s = some k) :
    ∃ j, j < l.length ∧ k = s + j ∧ p (hget l j) = true := by
  induction l generalizing s with
  | nil => simp [List.findIdx?_nil] at h
  | cons a tl ih =>
    rw [List.findIdx?_cons] at h
    by_cases hp : p a = true
    · rw [if_pos hp] at h
      refine ⟨0, by simp, by simpa using (Option.some_inj.mp h).symm, ?_⟩
      simpa [hget] using hp
    · rw [if_neg hp] at h
      obtain ⟨j, hj, hk, hpj⟩ := ih (s + 1) h
      exact ⟨j + 1, by simpa using hj, by omega, by simpa [hget_cons_succ] using hpj⟩

theorem mem_colIdxs (h : List Task) (c : Column) (i : Nat) :
    i ∈ colIdxs h c ↔ i < h.length ∧ (hget h i).column = c := by
  simp [colIdxs, List.mem_filter, List.mem_range]

theorem mem_sortIdxByOrder (h : List Task) (idxs : List Nat) (i : Nat) :
    i ∈ sortIdxByOrder h idxs ↔ i ∈ idxs := by
  simp [sortIdxByOrder, sortByKey, List.mem_insertionSort]

theorem nodup_sortIdxByOrder (h : List Task) (idxs : List Nat)
    (hnd : idxs.Nodup) : (sortIdxByOrder h idxs).Nodup :=
  (List.perm_insertionSort _ idxs).symm.nodup hnd

theorem nodup_colIdxs (h : List Task) (c : Column) : (colIdxs h c).Nodup :=
  (List.nodup_range h.length).filter _

theorem map_hget_sortIdxByOrder (h : List Task) (idxs : List Nat) :
    (sortIdxByOrder h idxs).map (hget h) = sortByOrder (idxs.map (hget h)) := by
  exact List.map_insertionSort _ _ (hget h) idxs (fun a _ b _ => Iff.rfl)

theorem map_hget_filterRange (l : List Task) (p : Task → Bool) :
    ((List.range l.length).filter (fun i => p (hget l i))).map (hget l)
      = l.filter p := by
  induction l with
  | nil => rfl
  | cons a tl ih =>
    have hlen : (a :: tl).length = tl.length + 1 := rfl
    rw [hlen, List.range_succ_eq_map, List.filter_cons]
    have hcomp : (List.map Nat.succ (List.range tl.length)).filter
        (fun i => p (hget (a :: tl) i))
        = List.map Nat.succ ((List.range tl.length).filter (fun i => p (hget tl i))) := by
      rw [List.filter_map]
      rfl
    by_cases hp : p (hget (a :: tl) 0) = true
    · rw [if_pos hp, List.map_cons, hcomp, List.map_map]
      have : (hget (a :: tl)) ∘ Nat.succ = hget tl := rfl
      rw [this, ih, List.filter_cons]
      have : p a = true := hp
      rw [if_pos this]
      rfl
    · rw [if_neg hp, hcomp, List.map_map]
      have : (hget (a :: tl)) ∘ Nat.succ = hget tl := rfl
      rw [this, ih, List.filter_cons]
      have : ¬ p a = true := hp
      rw [if_neg this]

theorem map_hget_colIdxs (h : List Task) (c : Column) :
    (colIdxs h c).map (hget h) = h.filter (fun t => t.column = c) :=
  map_hget_filterRange h (fun t => t.column = c)

theorem filter_set_of_false (h : List Task) (i : Nat) (x : Task)
    (q : Task → Bool) (hold : q (hget h i) = false) (hnew : q x = false) :
    (h.set i x).filter q = h.filter q := by
  induction h generalizing i with
  | nil => rfl
  | cons a tl ih =>
    cases i with
    | zero =>
      have ha : q a = false := hold
      rw [List.set_cons_zero, List.filter_cons, List.filter_cons,
        if_neg (by simp [hnew]), if_neg (by simp [ha])]
    | succ n =>
      rw [List.set_cons_succ, List.filter_cons, List.filter_cons,
        ih n (by simpa [hget_cons_succ] using hold)]

theorem filterCol_renumberFrom (idxs : List Nat) (h : List Task) (p : Nat)
    (c : Column) (hc : ∀ i ∈ idxs, ¬ (hget h i).column = c) :
    (renumberFrom h p idxs).filter (fun t => t.column = c)
      = h.filter (fun t => t.column = c) := by
  induction idxs generalizing h p with
  | nil => rfl
  | cons j rest ih =>
    rw [renumberFrom]
    have hj : ¬ (hget h j).column = c := hc j (List.mem_cons_self j rest)
    rw [ih _ _ (fun i hi => by
      rw [hget_set]
      by_cases hcase : j = i ∧ j < h.length
      · rw [if_pos hcase]
        simpa using hj
      · rw [if_neg hcase]
        exact hc i (List.mem_cons_of_mem j hi))]
    exact filter_set_of_false h j _ _ (by simpa using hj) (by simpa using hj)

theorem foldl_append_congr (L : List Column) (a : List Task)
    (s1 s2 : Column → List Task) (h : ∀ c ∈ L, s1 c = s2 c) :
    L.foldl (fun acc c => acc ++ s1 c) a = L.foldl (fun acc c => acc ++ s2 c) a := by
  induction L generalizing a with
  | nil => rfl
  | cons c rest ih =>
    rw [List.foldl_cons, List.foldl_cons, h c (List.mem_cons_self c rest),
      ih _ (fun d hd => h d (List.mem_cons_of_mem c hd))]

theorem nodup_sourceIdxs (tasks : List Task) (c : Column) :
    (sourceIdxs tasks c).Nodup :=
  nodup_sortIdxByOrder tasks _ (nodup_colIdxs tasks c)

theorem nodup_sourceIdxs1 (tasks : List Task) (c : Column) (srcIndex : Nat) :
    (sourceIdxs1 tasks c srcIndex).Nodup :=
  (sublist_spliceRemove _ _).nodup (nodup_sourceIdxs tasks c)

theorem mem_sourceIdxs (tasks : List Task) (c : Column) (i : Nat) :
    i ∈ sourceIdxs tasks c ↔ i < tasks.length ∧ (hget tasks i).column = c := by
  rw [sourceIdxs, mem_sortIdxByOrder, mem_colIdxs]

theorem mem_sourceIdxs1 (tasks : List Task) (c : Column) (srcIndex i : Nat)
    (hi : i ∈ sourceIdxs1 tasks c srcIndex) :
    i < tasks.length ∧ (hget tasks i).column = c :=
  (mem_sourceIdxs tasks c i).mp ((sublist_spliceRemove _ _).subset hi)

theorem movedIdx_notMem_sourceIdxs1 (tasks : List Task) (c : Column)
    (srcIndex movedIdx : Nat)
    (hsrc : (sourceIdxs tasks c)[srcIndex]? = some movedIdx) :
    movedIdx ∉ sourceIdxs1 tasks c srcIndex :=
  notMem_spliceRemove _ _ _ (nodup_sourceIdxs tasks c) hsrc

theorem movedIdx_notMem_destCol (tasks : List Task) (movedIdx : Nat)
    (moved : Task) (srcCol destCol : Column) (hne : ¬ srcCol = destCol)
    (hmv : hget tasks movedIdx = moved) (hcol : moved.column = srcCol) :
    movedIdx ∉ sourceIdxs tasks destCol := by
  intro h
  have hc : (hget tasks movedIdx).column = destCol :=
    ((mem_sourceIdxs tasks destCol movedIdx).mp h).2
  rw [hmv, hcol] at hc
  exact hne hc

theorem nodup_destIdxs1 (tasks : List Task) (movedIdx : Nat) (moved : Task)
    (srcCol destCol : Column) (destIndex : Nat) (hne : ¬ srcCol = destCol)
    (hmv : hget tasks movedIdx = moved) (hcol : moved.column = srcCol) :
    (destIdxs1 tasks movedIdx destCol destIndex).Nodup :=
  (perm_spliceInsert _ _ _).symm.nodup
    (List.nodup_cons.mpr
      ⟨movedIdx_notMem_destCol tasks movedIdx moved srcCol destCol hne hmv hcol,
       nodup_sourceIdxs tasks destCol⟩)

theorem sourceIdxs1_notMem_destIdxs1 (tasks : List Task) (movedIdx : Nat)
    (srcCol destCol : Column) (srcIndex destIndex : Nat)
    (hne : ¬ srcCol = destCol)
    (hsrc : (sourceIdxs tasks srcCol)[srcIndex]? = some movedIdx)
    (i : Nat) (hiS : i ∈ sourceIdxs1 tasks srcCol srcIndex) :
    i ∉ destIdxs1 tasks movedIdx destCol destIndex := by
  intro hiD
  rcases (mem_spliceInsert _ _ _ _).mp hiD with he | hD
  · exact movedIdx_notMem_sourceIdxs1 tasks srcCol srcIndex movedIdx hsrc (he ▸ hiS)
  · exact hne ((mem_sourceIdxs1 tasks srcCol srcIndex i hiS).2.symm.trans
      ((mem_sourceIdxs tasks destCol i).mp hD).2)

theorem length_heap1 (tasks : List Task) (c : Column) (srcIndex : Nat) :
    (heap1 tasks c srcIndex).length = tasks.length :=
  length_renumberFrom _ _ _

theorem length_heap2 (tasks : List Task) (movedIdx : Nat)
    (srcCol destCol : Column) (srcIndex : Nat) :
    (heap2 tasks movedIdx srcCol destCol srcIndex).length = tasks.length := by
  rw [heap2, List.length_set, length_heap1]

theorem length_heap3 (tasks : List Task) (movedIdx : Nat)
    (srcCol destCol : Column) (srcIndex : Nat) :
    (heap3 tasks movedIdx srcCol destCol srcIndex).length = tasks.length := by
  rw [heap3, length_renumberFrom, length_heap2]

theorem hget_heap1_notMem (tasks : List Task) (c : Column) (srcIndex i : Nat)
    (hi : i ∉ sourceIdxs1 tasks c srcIndex) :
    hget (heap1 tasks c srcIndex) i = hget tasks i := by
  rw [heap1]
  exact hget_renumberFrom_of_notMem _ _ _ _ hi

theorem hget_heap2_moved (tasks : List Task) (movedIdx : Nat) (moved : Task)
    (srcCol destCol : Column) (srcIndex : Nat)
    (hlt : movedIdx < tasks.length)
    (hmv : hget tasks movedIdx = moved)
    (hsrc : (sourceIdxs tasks srcCol)[srcIndex]? = some movedIdx) :
    hget (heap2 tasks movedIdx srcCol destCol srcIndex) movedIdx
      = { moved with column := destCol } := by
  rw [heap2, hget_set,
    if_pos ⟨rfl, by rw [length_heap1]; exact hlt⟩,
    hget_heap1_notMem tasks srcCol srcIndex movedIdx
      (movedIdx_notMem_sourceIdxs1 tasks srcCol srcIndex movedIdx hsrc), hmv]

theorem hget_heap2_ne (tasks : List Task) (movedIdx : Nat)
    (srcCol destCol : Column) (srcIndex i : Nat) (hne_i : ¬ movedIdx = i) :
    hget (heap2 tasks movedIdx srcCol destCol srcIndex) i
      = hget (heap1 tasks srcCol srcIndex) i := by
  rw [heap2, hget_set, if_neg (fun hc => hne_i hc.1)]

theorem column_hget_heap1 (tasks : List Task) (c : Column) (srcIndex i : Nat) :
    (hget (heap1 tasks c srcIndex) i).column = (hget tasks i).column := by
  rw [heap1]
  exact column_hget_renumberFrom _ _ _ _

theorem column_hget_heap3 (tasks : List Task) (movedIdx : Nat)
    (srcCol destCol : Column) (srcIndex i : Nat) :
    (hget (heap3 tasks movedIdx srcCol destCol srcIndex) i).column
      = (hget (heap2 tasks movedIdx srcCol destCol srcIndex) i).column := by
  rw [heap3]
  exact column_hget_renumberFrom _ _ _ _

theorem mem_spliceRemove_sortIdx (tasks : List Task) (c : Column)
    (srcIndex : Nat) (i : Nat)
    (hi : i ∈ spliceRemove (sortIdxByOrder tasks (colIdxs tasks c)) srcIndex) :
    i < tasks.length ∧ (hget tasks i).column = c :=
  (mem_colIdxs tasks c i).mp
    ((mem_sortIdxByOrder tasks _ i).mp ((sublist_spliceRemove _ _).subset hi))

theorem sameColMove_frame (tasks : List Task) (movedIdx : Nat)
    (srcCol destCol : Column) (srcIndex destIndex : Nat) (i : Nat)
    (hs : ¬ (hget tasks i).column = srcCol) (hmi : ¬ i = movedIdx) :
    hget ((sameColMove tasks movedIdx srcCol destCol srcIndex destIndex).1) i
      = hget tasks i := by
  have hiS1 : i ∉ spliceRemove (sortIdxByOrder tasks (colIdxs tasks srcCol)) srcIndex :=
    fun hmem => hs (mem_spliceRemove_sortIdx tasks srcCol srcIndex i hmem).2
  have hiS2 : i ∉ spliceInsert
      (spliceRemove (sortIdxByOrder tasks (colIdxs tasks srcCol)) srcIndex)
      destIndex movedIdx := by
    rw [mem_spliceInsert]
    rintro (h | h)
    · exact hmi h
    · exact hiS1 h
  simp only [sameColMove, heap2same, heap1, sourceIdxs2, sourceIdxs1, sourceIdxs]
  rw [hget_renumberFrom_of_notMem _ _ _ _ hiS2,
      hget_renumberFrom_of_notMem _ _ _ _ hiS1]

theorem crossColMove_frame (tasks : List Task) (movedIdx : Nat)
    (srcCol destCol : Column) (srcIndex destIndex : Nat) (i : Nat)
    (hs : ¬ (hget tasks i).column = srcCol)
    (hd : ¬ (hget tasks i).column = destCol) (hmi : ¬ i = movedIdx) :
    hget ((crossColMove tasks movedIdx srcCol destCol srcIndex destIndex).1) i
      = hget tasks i := by
  have hiS1 : i ∉ spliceRemove (sortIdxByOrder tasks (colIdxs tasks srcCol)) srcIndex :=
    fun hmem => hs (mem_spliceRemove_sortIdx tasks srcCol srcIndex i hmem).2
  have hiD1 : i ∉ spliceInsert (sortIdxByOrder tasks (colIdxs tasks destCol))
      destIndex movedIdx := by
    rw [mem_spliceInsert]
    rintro (h | h)
    · exact hmi h
    · exact hd ((mem_colIdxs tasks destCol i).mp
        ((mem_sortIdxByOrder tasks _ i).mp h)).2
  simp only [crossColMove, heap4, heap3, heap2, heap1, destIdxs1,
    sourceIdxs1, sourceIdxs]
  rw [hget_renumberFrom_of_notMem _ _ _ _ hiD1,
      hget_renumberFrom_of_notMem _ _ _ _ hiS1,
      hget_set, if_neg (fun hc => hmi hc.1.symm),
      hget_renumberFrom_of_notMem _ _ _ _ hiS1]

theorem crossMove_src_segment (tasks : List Task) (movedIdx : Nat)
    (srcCol destCol : Column) (srcIndex destIndex : Nat)
    (hne : ¬ srcCol = destCol)
    (hsrc : (sourceIdxs tasks srcCol)[srcIndex]? = some movedIdx) :
    (sourceIdxs1 tasks srcCol srcIndex).map
        (hget (heap4 tasks movedIdx srcCol destCol srcIndex destIndex))
      = renumberSeq (spliceRemove
          (sortByOrder (tasks.filter (fun t => t.column = srcCol))) srcIndex) := by
  have hndS1 := nodup_sourceIdxs1 tasks srcCol srcIndex
  have hmvS1 := movedIdx_notMem_sourceIdxs1 tasks srcCol srcIndex movedIdx hsrc
  have e1 : (sourceIdxs1 tasks srcCol srcIndex).map
      (hget (heap4 tasks movedIdx srcCol destCol srcIndex destIndex))
      = (sourceIdxs1 tasks srcCol srcIndex).map
        (hget (heap3 tasks movedIdx srcCol destCol srcIndex)) := by
    apply List.map_congr_left
    intro i hi
    rw [heap4]
    exact hget_renumberFrom_of_notMem _ _ _ _
      (sourceIdxs1_notMem_destIdxs1 tasks movedIdx srcCol destCol srcIndex
        destIndex hne hsrc i hi)
  have e2 : (sourceIdxs1 tasks srcCol srcIndex).map
      (hget (heap3 tasks movedIdx srcCol destCol srcIndex))
      = renumberSeqFrom 0 ((sourceIdxs1 tasks srcCol srcIndex).map
          (hget (heap2 tasks movedIdx srcCol destCol srcIndex))) := by
    rw [heap3]
    exact map_hget_renumberFrom _ _ _ hndS1 (fun i hi => by
      rw [length_heap2]
      exact (mem_sourceIdxs1 tasks srcCol srcIndex i hi).1)
  have e3 : (sourceIdxs1 tasks srcCol srcIndex).map
      (hget (heap2 tasks movedIdx srcCol destCol srcIndex))
      = (sourceIdxs1 tasks srcCol srcIndex).map (hget (heap1 tasks srcCol srcIndex)) := by
    apply List.map_congr_left
    intro i hi
    exact hget_heap2_ne tasks movedIdx srcCol destCol srcIndex i
      (fun e => hmvS1 (e.symm ▸ hi))
  have e4 : (sourceIdxs1 tasks srcCol srcIndex).map (hget (heap1 tasks srcCol srcIndex))
      = renumberSeqFrom 0 ((sourceIdxs1 tasks srcCol srcIndex).map (hget tasks)) := by
    rw [heap1]
    exact map_hget_renumberFrom _ _ _ hndS1 (fun i hi =>
      (mem_sourceIdxs1 tasks srcCol srcIndex i hi).1)
  have e5 : (sourceIdxs1 tasks srcCol srcIndex).map (hget tasks)
      = spliceRemove (sortByOrder (tasks.filter (fun t => t.column = srcCol))) srcIndex := by
    rw [sourceIdxs1, map_spliceRemove, sourceIdxs, map_hget_sortIdxByOrder,
      map_hget_colIdxs]
  rw [e1, e2, e3, e4, e5, renumberSeqFrom_renumberSeqFrom, renumberSeq]

theorem crossMove_dest_segment (tasks : List Task) (movedIdx : Nat)
    (moved : Task) (srcCol destCol : Column) (srcIndex destIndex : Nat)
    (hne : ¬ srcCol = destCol) (hlt : movedIdx < tasks.length)
    (hmv : hget tasks movedIdx = moved) (hcol : moved.column = srcCol)
    (hsrc : (sourceIdxs tasks srcCol)[srcIndex]? = some movedIdx) :
    (destIdxs1 tasks movedIdx destCol destIndex).map
        (hget (heap4 tasks movedIdx srcCol destCol srcIndex destIndex))
      = renumberSeq (spliceInsert
          (sortByOrder (tasks.filter (fun t => t.column = destCol))) destIndex
          { moved with column := destCol }) := by
  have hmvD := movedIdx_notMem_destCol tasks movedIdx moved srcCol destCol hne hmv hcol
  have hndD1 := nodup_destIdxs1 tasks movedIdx moved srcCol destCol destIndex hne hmv hcol
  have hbdD1 : ∀ i ∈ destIdxs1 tasks movedIdx destCol destIndex,
      i < (heap3 tasks movedIdx srcCol destCol srcIndex).length := by
    intro i hi
    rw [length_heap3]
    rcases (mem_spliceInsert _ _ _ _).mp hi with he | hD
    · exact he ▸ hlt
    · exact ((mem_sourceIdxs tasks destCol i).mp hD).1
  have e1 : (destIdxs1 tasks movedIdx destCol destIndex).map
      (hget (heap4 tasks movedIdx srcCol destCol srcIndex destIndex))
      = renumberSeqFrom 0 ((destIdxs1 tasks movedIdx destCol destIndex).map
          (hget (heap3 tasks movedIdx srcCol destCol srcIndex))) := by
    rw [heap4]
    exact map_hget_renumberFrom _ _ _ hndD1 hbdD1
  have e2 : (destIdxs1 tasks movedIdx destCol destIndex).map
      (hget (heap3 tasks movedIdx srcCol destCol srcIndex))
      = (destIdxs1 tasks movedIdx destCol destIndex).map
        (hget (heap2 tasks movedIdx srcCol destCol srcIndex)) := by
    apply List.map_congr_left
    intro i hi
    rw [heap3]
    refine hget_renumberFrom_of_notMem _ _ _ _ (fun hiS => ?_)
    exact sourceIdxs1_notMem_destIdxs1 tasks movedIdx srcCol destCol srcIndex
      destIndex hne hsrc i hiS hi
  have e3 : (destIdxs1 tasks movedIdx destCol destIndex).map
      (hget (heap2 tasks movedIdx srcCol destCol srcIndex))
      = spliceInsert ((sourceIdxs tasks destCol).map
          (hget (heap2 tasks movedIdx srcCol destCol srcIndex))) destIndex
          (hget (heap2 tasks movedIdx srcCol destCol srcIndex) movedIdx) := by
    rw [destIdxs1, map_spliceInsert]
  have e4 : hget (heap2 tasks movedIdx srcCol destCol srcIndex) movedIdx
      = { moved with column := destCol } :=
    hget_heap2_moved tasks movedIdx moved srcCol destCol srcIndex hlt hmv hsrc
  have e5 : (sourceIdxs tasks destCol).map
      (hget (heap2 tasks movedIdx srcCol destCol srcIndex))
      = (sourceIdxs tasks destCol).map (hget tasks) := by
    apply List.map_congr_left
    intro i hi
    rw [hget_heap2_ne tasks movedIdx srcCol destCol srcIndex i
      (fun e => hmvD (e.symm ▸ hi))]
    refine hget_heap1_notMem tasks srcCol srcIndex i (fun hiS => ?_)
    exact hne ((mem_sourceIdxs1 tasks srcCol srcIndex i hiS).2.symm.trans
      ((mem_sourceIdxs tasks destCol i).mp hi).2)
  have e6 : (sourceIdxs tasks destCol).map (hget tasks)
      = sortByOrder (tasks.filter (fun t => t.column = destCol)) := by
    rw [sourceIdxs, map_hget_sortIdxByOrder, map_hget_colIdxs]
  rw [e1, e2, e3, e4, e5, e6, renumberSeq]

theorem crossMove_other_cols (tasks : List Task) (movedIdx : Nat)
    (moved : Task) (srcCol destCol : Column) (srcIndex destIndex : Nat)
    (c : Column)
    (hne : ¬ srcCol = destCol) (hlt : movedIdx < tasks.length)
    (hmv : hget tasks movedIdx = moved) (hcol : moved.column = srcCol)
    (hsrc : (sourceIdxs tasks srcCol)[srcIndex]? = some movedIdx)
    (hcs : ¬ c = srcCol) (hcd : ¬ c = destCol) :
    (heap4 tasks movedIdx srcCol destCol srcIndex destIndex).filter
        (fun t => t.column = c)
      = tasks.filter (fun t => t.column = c) := by
  have hmvS1 := movedIdx_notMem_sourceIdxs1 tasks srcCol srcIndex movedIdx hsrc
  have hmvD := movedIdx_notMem_destCol tasks movedIdx moved srcCol destCol hne hmv hcol
  have hcol2 : ∀ i, ¬ movedIdx = i →
      (hget (heap2 tasks movedIdx srcCol destCol srcIndex) i).column
        = (hget tasks i).column := by
    intro i hne_i
    rw [hget_heap2_ne tasks movedIdx srcCol destCol srcIndex i hne_i,
      column_hget_heap1]
  have s1 : (heap4 tasks movedIdx srcCol destCol srcIndex destIndex).filter
      (fun t => t.column = c)
      = (heap3 tasks movedIdx srcCol destCol srcIndex).filter
        (fun t => t.column = c) := by
    rw [heap4]
    apply filterCol_renumberFrom
    intro i hi
    rw [column_hget_heap3]
    rcases (mem_spliceInsert _ _ _ _).mp hi with he | hD
    · rw [he, hget_heap2_moved tasks movedIdx moved srcCol destCol srcIndex hlt hmv hsrc]
      exact fun h => hcd h.symm
    · rw [hcol2 i (fun e => hmvD (e.symm ▸ hD))]
      intro h
      exact hcd (h.symm.trans ((mem_sourceIdxs tasks destCol i).mp hD).2)
  have s2 : (heap3 tasks movedIdx srcCol destCol srcIndex).filter
      (fun t => t.column = c)
      = (heap2 tasks movedIdx srcCol destCol srcIndex).filter
        (fun t => t.column = c) := by
    rw [heap3]
    apply filterCol_renumberFrom
    intro i hi
    rw [hcol2 i (fun e => hmvS1 (e.symm ▸ hi))]
    intro h
    exact hcs (h.symm.trans (mem_sourceIdxs1 tasks srcCol srcIndex i hi).2)
  have s3 : (heap2 tasks movedIdx srcCol destCol srcIndex).filter
      (fun t => t.column = c)
      = (heap1 tasks srcCol srcIndex).filter (fun t => t.column = c) := by
    rw [heap2]
    apply filter_set_of_false
    · simp only [decide_eq_false_iff_not]
      rw [column_hget_heap1]
      intro h
      exact hcs (h.symm.trans ((congrArg Task.column hmv).trans hcol))
    · simp only [decide_eq_false_iff_not]
      exact fun h => hcd h.symm
  have s4 : (heap1 tasks srcCol srcIndex).filter (fun t => t.column = c)
      = tasks.filter (fun t => t.column = c) := by
    rw [heap1]
    apply filterCol_renumberFrom
    intro i hi
    intro h
    exact hcs (h.symm.trans (mem_sourceIdxs1 tasks srcCol srcIndex i hi).2)
  rw [s1, s2, s3, s4]

theorem crossColMove_refines_spec (tasks : List Task) (movedIdx : Nat)
    (moved : Task) (srcCol destCol : Column) (srcIndex destIndex : Nat)
    (hne : ¬ srcCol = destCol) (hlt : movedIdx < tasks.length)
    (hmv : hget tasks movedIdx = moved) (hcol : moved.column = srcCol)
    (hsrc : (sourceIdxs tasks srcCol)[srcIndex]? = some movedIdx) :
    (crossColMove tasks movedIdx srcCol destCol srcIndex destIndex).2
      = specCrossMove tasks moved srcCol destCol srcIndex destIndex := by
  show buildUpdated (heap4 tasks movedIdx srcCol destCol srcIndex destIndex)
      srcCol destCol (sourceIdxs1 tasks srcCol srcIndex)
      (destIdxs1 tasks movedIdx destCol destIndex)
    = specCrossMove tasks moved srcCol destCol srcIndex destIndex
  simp only [buildUpdated, specCrossMove]
  apply foldl_append_congr
  intro c _
  by_cases hcs : c = srcCol
  · rw [if_pos hcs, if_pos hcs]
    exact crossMove_src_segment tasks movedIdx srcCol destCol srcIndex destIndex hne hsrc
  · rw [if_neg hcs, if_neg hcs]
    by_cases hcd : c = destCol
    · rw [if_pos hcd, if_pos hcd]
      exact crossMove_dest_segment tasks movedIdx moved srcCol destCol srcIndex
        destIndex hne hlt hmv hcol hsrc
    · rw [if_neg hcd, if_neg hcd]
      exact congrArg sortByOrder (crossMove_other_cols tasks movedIdx moved
        srcCol destCol srcIndex destIndex c hne hlt hmv hcol hsrc hcs hcd)

/-- Claim C2: a cross-group move removes the moved entity from the source
group's rank-sorted sequence, renumbers the source group `0..n-2`, sets the
moved entity's group field to the destination, inserts it at the destination
index of the destination group's rank-sorted sequence, renumbers the
destination group `0..n-1`, and passes the other groups through re-sorted —
i.e. `onDragEnd`'s output equals the spec's construction `specCrossMove`.
The hypotheses are the spec's input constraints: the destination differs from
the source, the dragged identifier names the task at index `movedIdx`, that
task is in the source group, and the source index references its position in
the source group's rank-sorted sequence. Instantiated at the claim's concrete
scenario (groups `todo` = A,B,C and `done` = empty) by the witness. -/
theorem cross_move_refines_spec (tasks : List Task) (draggableId : String)
    (moved : Task) (movedIdx : Nat) (srcCol destCol : Column)
    (srcIndex destIndex : Nat)
    (hne : ¬ srcCol = destCol)
    (hfind : tasks.findIdx? (fun t => t.id = draggableId) = some movedIdx)
    (hlt : movedIdx < tasks.length)
    (hmv : hget tasks movedIdx = moved)
    (hcol : moved.column = srcCol)
    (hsrc : (sourceIdxs tasks srcCol)[srcIndex]? = some movedIdx) :
    (onDragEndModel tasks draggableId srcCol destCol srcIndex destIndex).2
      = specCrossMove tasks moved srcCol destCol srcIndex destIndex := by
  unfold onDragEndModel
  rw [if_neg (fun h => hne h.1), hfind]
  show (if srcCol = destCol then
      sameColMove tasks movedIdx srcCol destCol srcIndex destIndex
    else crossColMove tasks movedIdx srcCol destCol srcIndex destIndex).2
    = specCrossMove tasks moved srcCol destCol srcIndex destIndex
  rw [if_neg hne]
  exact crossColMove_refines_spec tasks movedIdx moved srcCol destCol srcIndex
    destIndex hne hlt hmv hcol hsrc

/-- Witness for C2: the claim's end-to-end scenario. With `todo` = A(rank 0),
B(rank 1), C(rank 2) and `done` empty, moving A from `todo` index 0 to `done`
index 0 yields `todo` = B(rank 0), C(rank 1) and `done` = A(rank 0), i.e. the
flat output B(todo,0), C(todo,1), A(done,0). -/
theorem cross_move_refines_spec_witness :
    (onDragEndModel [taskA, taskB, taskC] "A" Column.todo Column.done 0 0).2
      = [{ taskB with order := 0 }, { taskC with order := 1 },
         { taskA with column := Column.done, order := 0 }] := by
  rw [cross_move_refines_spec [taskA, taskB, taskC] "A" taskA 0 Column.todo
    Column.done 0 0 (by decide) (by decide) (by decide) (by decide) (by decide)
    (by decide)]
  decide

/-- Counterexample to claim C5 as stated: `onDragEnd` mutates the task
objects of its input array in place. Moving `A` from `todo` to `done` on
the original set `A(todo,0), B(todo,1), C(todo,2)` leaves the input array's
objects with `A`'s group field and `B`'s and `C`'s rank fields changed. -/
theorem move_mutates_input :
    (onDragEndModel [taskA, taskB, taskC] "A" Column.todo Column.done 0 0).1
      = [{ taskA with column := Column.done }, { taskB with order := 0 },
         { taskC with order := 1 }] ∧
    ¬ (onDragEndModel [taskA, taskB, taskC] "A" Column.todo Column.done 0 0).1
      = [taskA, taskB, taskC] := by decide

/-- Claim C5 as amended: the reordering computation is not pure — it
reassigns the rank fields of the source and destination groups' entities and
the moved entity's group field on the original input objects — but it is
frame-bounded: every input entity that is in neither the source nor the
destination group and is not the moved entity is left unchanged by the
call. -/
theorem move_frame (tasks : List Task) (draggableId : String)
    (srcCol destCol : Column) (srcIndex destIndex : Nat) (i : Nat)
    (hs : ¬ (hget tasks i).column = srcCol)
    (hd : ¬ (hget tasks i).column = destCol)
    (hid : ¬ (hget tasks i).id = draggableId) :
    hget ((onDragEndModel tasks draggableId srcCol destCol srcIndex destIndex).1) i
      = hget tasks i := by
  unfold onDragEndModel
  by_cases hnop : srcCol = destCol ∧ srcIndex = destIndex
  · rw [if_pos hnop]
  · rw [if_neg hnop]
    cases hfind : tasks.findIdx? (fun t => t.id = draggableId) with
    | none => rfl
    | some movedIdx =>
      show hget ((if srcCol = destCol then
            sameColMove tasks movedIdx srcCol destCol srcIndex destIndex
          else crossColMove tasks movedIdx srcCol destCol srcIndex destIndex).1) i
        = hget tasks i
      obtain ⟨j, hjlen, hj0, hpj⟩ := findIdx?_found tasks _ 0 movedIdx hfind
      have hjm : movedIdx = j := by omega
      have hmi : ¬ i = movedIdx := fun e => hid (by
        rw [e, hjm]
        exact of_decide_eq_true hpj)
      by_cases hsame : srcCol = destCol
      · rw [if_pos hsame]
        exact sameColMove_frame tasks movedIdx srcCol destCol srcIndex destIndex i hs hmi
      · rw [if_neg hsame]
        exact crossColMove_frame tasks movedIdx srcCol destCol srcIndex destIndex i hs hd hmi

/-- Witness for the amended C5: a task in a third group (`D` in
`inprogress`) is untouched by a move from `todo` to `done`. -/
theorem move_frame_witness :
    hget ((onDragEndModel [taskA, taskDb, taskC0] "A" Column.todo Column.done 0 0).1) 2
      = hget [taskA, taskDb, taskC0] 2 :=
  move_frame [taskA, taskDb, taskC0] "A" Column.todo Column.done 0 0 2
    (by decide) (by decide) (by decide)

/-- Claim C6: reconciling an `init` (full snapshot) event unconditionally
replaces the whole local entity set with the snapshot's entity set. -/
theorem init_replaces_state (s ts : List Task) :
    applyEvent s (Event.init ts) = ts := rfl

/-- Claim C3: two independent local states that receive the identical ordered
sequence of authoritative events, beginning with an `init` event, end with
equal per-group ordered identifier sequences. -/
theorem reorder_convergence (s1 s2 ts : List Task) (rest : List Event)
    (c : Column) :
    groupSeq (applyEvents s1 (Event.init ts :: rest)) c
      = groupSeq (applyEvents s2 (Event.init ts :: rest)) c := rfl

/-- Claim C4: reconciliation is idempotent per event — applying the same
authoritative event twice yields the same state as applying it once. -/
theorem applyEvent_idempotent (s : List Task) (e : Event) :
    applyEvent (applyEvent s e) e = applyEvent s e := by
  cases e with
  | init ts => rfl
  | created t =>
    by_cases h : s.any (fun x => x.id = t.id) = true
    · simp [applyEvent, h]
    · simp only [applyEvent, h, if_false, Bool.not_eq_true] at h ⊢
      simp [h, List.any_append]
  | updated t =>
    simp only [applyEvent, List.map_map]
    apply List.map_congr_left
    intro x _
    by_cases hx : x.id = t.id <;> simp [hx]
  | deleted i =>
    simp [applyEvent, List.filter_filter]
  | reorder ts =>
    by_cases h : joinedIds s = joinedIds ts
    · simp [applyEvent, h]
    · simp [applyEvent, h]

/-- Claim C8: a `created` event inserts its task at the end when no local
task has its identifier, and is a no-op when one does. -/
theorem created_dedup (s : List Task) (t : Task) :
    ((∃ x ∈ s, x.id = t.id) → applyEvent s (Event.created t) = s) ∧
    ((∀ x ∈ s, x.id ≠ t.id) → applyEvent s (Event.created t) = s ++ [t]) := by
  constructor
  · intro h
    have ha : s.any (fun x => x.id = t.id) = true := by
      simpa [List.any_eq_true] using h
    simp [applyEvent, ha]
  · intro h
    have ha : s.any (fun x => x.id = t.id) = false := by
      simpa [List.any_eq_false] using h
    simp [applyEvent, ha]

/-- Witness for C8 at a concrete state: a duplicate `created` is dropped and
a fresh one is appended. -/
theorem created_dedup_witness :
    applyEvent [taskA] (Event.created taskA) = [taskA] ∧
    applyEvent [taskA] (Event.created taskB) = [taskA] ++ [taskB] :=
  ⟨(created_dedup [taskA] taskA).1 (by decide),
   (created_dedup [taskA] taskB).2 (by decide)⟩

/-- Counterexample to claim C9 as stated: the `tasks_reorder` comparison is
on the comma-joined identifier string, so an incoming set whose identifier
sequence differs from the local one (but joins to the same string, here
`a,b`) is discarded instead of replacing the local set. -/
theorem reorder_join_counterexample :
    ([taskAB].map (fun t => t.id) ≠ [taskA2, taskB2].map (fun t => t.id)) ∧
    applyEvent [taskAB] (Event.reorder [taskA2, taskB2]) = [taskAB] ∧
    ([taskAB] : List Task) ≠ [taskA2, taskB2] := by
  refine ⟨by decide, ?_, by decide⟩
  have h : joinedIds [taskAB] = joinedIds [taskA2, taskB2] := by decide
  simp [applyEvent, h]

/-- Claim C9 as amended: a `tasks_reorder` event whose tasks join to the same
comma-separated identifier string as the local state (in particular, whose
identifier sequence is identical in order) keeps the exact prior state value;
when the joined strings differ the full local set is replaced by the incoming
set. -/
theorem reorder_policy (s ts : List Task) :
    (s.map (fun t => t.id) = ts.map (fun t => t.id) →
      applyEvent s (Event.reorder ts) = s) ∧
    (joinedIds s = joinedIds ts → applyEvent s (Event.reorder ts) = s) ∧
    (joinedIds s ≠ joinedIds ts → applyEvent s (Event.reorder ts) = ts) := by
  refine ⟨fun h => ?_, fun h => by simp [applyEvent, h], fun h => by simp [applyEvent, h]⟩
  have hj : joinedIds s = joinedIds ts := by
    simp [joinedIds, h]
  simp [applyEvent, hj]

/-- Witness for the amended C9: an identical sequence is kept, a genuinely
different one replaces the state. -/
theorem reorder_policy_witness :
    applyEvent [taskA, taskB] (Event.reorder [taskA, taskB]) = [taskA, taskB] ∧
    applyEvent [taskA, taskB] (Event.reorder [taskC]) = [taskC] :=
  ⟨(reorder_policy [taskA, taskB] [taskA, taskB]).1 (by decide),
   (reorder_policy [taskA, taskB] [taskC]).2.2 (by decide)⟩

/-- Claim C10: the reorder dedup compares only the flat identifier sequence
and never entity contents — whenever the incoming identifier sequence equals
the local one, the whole incoming set is discarded and the local state (with
its current group and rank fields) is kept. -/
theorem reorder_ignores_contents (s ts : List Task)
    (h : s.map (fun t => t.id) = ts.map (fun t => t.id)) :
    applyEvent s (Event.reorder ts) = s := by
  have hj : joinedIds s = joinedIds ts := by simp [joinedIds, h]
  simp [applyEvent, hj]

/-- Witness for C10: a broadcast that moves `A` to group `done` but keeps the
flat identifier order is dropped, so the local state keeps `A` in `todo`. -/
theorem reorder_ignores_contents_witness :
    applyEvent [taskA, taskDb] (Event.reorder [taskAd, taskDb])
      = [taskA, taskDb] ∧
    taskAd.column ≠ taskA.column :=
  ⟨reorder_ignores_contents [taskA, taskDb] [taskAd, taskDb] (by decide),
   by decide⟩

/-- Counterexample to claim C1 as stated: reconciling a `task_deleted` event
does not renumber the surviving ranks, so deleting the rank-0 entity of a
two-entity group leaves the other entity at rank 1 — a gap. -/
theorem delete_breaks_contiguity :
    ranksContiguous [taskA, taskB] = true ∧
    ranksContiguous (applyEvent [taskA, taskB] (Event.deleted "A")) = false := by
  decide

/-- Claim C1 as amended: reconciliation never renumbers ranks, so contiguity
after a reconciled write holds only when the retained or incoming entity set
itself is contiguous; in particular an `init` or accepted `tasks_reorder`
event preserves per-group rank contiguity whenever the prior local state and
the event's task list are contiguous, while `created`, `updated` and
`deleted` events copy payload or state ranks verbatim and can break it. -/
theorem contiguity_init_reorder (s ts : List Task)
    (hs : ranksContiguous s = true) (hts : ranksContiguous ts = true) :
    ranksContiguous (applyEvent s (Event.init ts)) = true ∧
    ranksContiguous (applyEvent s (Event.reorder ts)) = true := by
  refine ⟨hts, ?_⟩
  by_cases h : joinedIds s = joinedIds ts
  · simp [applyEvent, h, hs]
  · simp [applyEvent, h, hts]

/-- Witness for the amended C1 at concrete contiguous states. -/
theorem contiguity_init_reorder_witness :
    ranksContiguous (applyEvent [taskA] (Event.init [taskC0])) = true ∧
    ranksContiguous (applyEvent [taskA] (Event.reorder [taskC0])) = true :=
  contiguity_init_reorder [taskA] [taskC0] (by decide) (by decide)

/-- Claim C7: rename and delete intents mutate local state optimistically —
the matching entity's title is replaced, resp. the entity is removed, before
the request resolves — while a create intent leaves local state untouched and
the new entity appears only when the authoritative `task_created` event is
reconciled. -/
theorem optimistic_intents (tasks : List Task) (taskId title : String)
    (t : Task) :
    (title ≠ "" → ∀ x ∈ tasks,
        (x.id = taskId → { x with title := title } ∈ editTaskLocal tasks taskId title) ∧
        (x.id ≠ taskId → x ∈ editTaskLocal tasks taskId title)) ∧
    (∀ x, x ∈ deleteTaskLocal tasks taskId ↔ (x ∈ tasks ∧ x.id ≠ taskId)) ∧
    (createTaskLocal tasks = tasks ∧
      ((∀ x ∈ tasks, x.id ≠ t.id) →
        applyEvent tasks (Event.created t) = tasks ++ [t])) := by
  refine ⟨fun ht x hx => ⟨fun hid => ?_, fun hid => ?_⟩, fun x => ?_, rfl, fun h => ?_⟩
  · simp only [editTaskLocal, if_neg ht]
    exact List.mem_map.mpr ⟨x, hx, by simp [hid]⟩
  · simp only [editTaskLocal, if_neg ht]
    exact List.mem_map.mpr ⟨x, hx, by simp [hid]⟩
  · simp [deleteTaskLocal]
  · have ha : tasks.any (fun x => x.id = t.id) = false := by
      simpa [List.any_eq_false] using h
    simp [applyEvent, ha]

/-- Witness for C7 at a concrete state: rename replaces the title, delete
removes the entity, create leaves the state and the `created` event appends
the entity. -/
theorem optimistic_intents_witness :
    ({ taskA with title := "renamed" } ∈ editTaskLocal [taskA, taskB] "A" "renamed") ∧
    (taskA ∉ deleteTaskLocal [taskA, taskB] "A") ∧
    createTaskLocal [taskA, taskB] = [taskA, taskB] ∧
    applyEvent [taskA, taskB] (Event.created taskC) = [taskA, taskB] ++ [taskC] := by
  have h := optimistic_intents [taskA, taskB] "A" "renamed" taskC
  refine ⟨(h.1 (by decide) taskA (by simp)).1 (by decide), ?_, h.2.2.1, h.2.2.2 (by decide)⟩
  intro hx
  exact absurd ((h.2.1 taskA).mp hx).2 (by decide)

end Taskfront
